import Mathlib

/-!
Verification of the neural style-transfer script `demo_x.py`.

The script's own logic is embedded shallowly:
* images and feature maps are total functions `ℕ → ℕ → ℕ → ℚ`
  (row, column, channel), with explicit dimension parameters bounding
  the sums that the numpy/Keras reductions perform;
* the preprocessing (mean subtraction + RGB→BGR flip) and the final
  de-preprocessing (flip + mean addition + clip + uint8 cast) are exact
  rational functions;
* the `Evaluator` class is a state machine whose methods return `none`
  exactly when the corresponding Python `assert` fires;
* the loss functions follow the source definitions, with the
  total-variation loss living in `ℝ` because of its exponent `1.25`.
-/

/-- Target size of all images, `height = 512` in the script. -/
def height : ℕ := 512

/-- Target size of all images, `width = 512` in the script. -/
def width : ℕ := 512

/-- Per-channel means subtracted during preprocessing, indexed by the
position in the array *before* the channel flip: index 0 gets 103.939,
index 1 gets 116.779, index 2 gets 123.68 (lines 97–99). -/
def means (c : ℕ) : ℚ :=
  if c = 0 then 103939 / 1000 else if c = 1 then 116779 / 1000 else 3092 / 25

/-- The channel reversal performed by the `[:, :, :, ::-1]` slice on a
3-channel axis: channel `c` of the result is channel `2 - c` of the input. -/
def revChan (c : ℕ) : ℕ := 2 - c

/-- Preprocessing of lines 97–100: subtract the means at their RGB
positions, then reverse the channel order. -/
def prepare (img : ℕ → ℕ → ℕ → ℚ) : ℕ → ℕ → ℕ → ℚ :=
  fun i j c => img i j (revChan c) - means (revChan c)

/-- Model of `np.clip` to the interval `[lo, hi]`. -/
def clip (lo hi x : ℚ) : ℚ := min hi (max lo x)

/-- De-preprocessing of lines 343–348: reverse the channel order, add the
means back at positions 0/1/2, clip to `[0, 255]` and cast to `uint8`.
The cast truncates; on the clipped (hence non-negative) value this is the
floor. -/
def unprepare (t : ℕ → ℕ → ℕ → ℚ) : ℕ → ℕ → ℕ → ℤ :=
  fun i j c => ⌊clip 0 255 (t i j (revChan c) + means c)⌋

/-- The `Evaluator` object of lines 296–314: it caches a loss value and a
gradient vector between the `loss` and `grads` calls. -/
structure Evaluator (L G : Type) where
  loss_value : Option L
  grad_values : Option G

/-- Constructor `Evaluator.__init__`: both caches start out empty. -/
def Evaluator.init (L G : Type) : Evaluator L G := ⟨none, none⟩

/-- Method `Evaluator.loss`: `assert self.loss_value is None` (modelled by
returning `none` when the assertion fires), then compute loss and
gradient jointly via `eval_loss_and_grads` (the abstract `f`), cache
both, and return the loss. -/
def Evaluator.loss {X L G : Type} (f : X → L × G) (e : Evaluator L G) (x : X) :
    Option (L × Evaluator L G) :=
  match e.loss_value with
  | some _ => none
  | none =>
    let r := f x
    some (r.1, { loss_value := some r.1, grad_values := some r.2 })

/-- Method `Evaluator.grads`: `assert self.loss_value is not None` (modelled by
returning `none` when the assertion fires), then return a copy of the
cached gradient and reset both caches to `None`.  The argument `x` is
never read. -/
def Evaluator.grads {X L G : Type} (e : Evaluator L G) (x : X) :
    Option (Option G × Evaluator L G) :=
  match e.loss_value with
  | none => none
  | some _ => some (e.grad_values, { loss_value := none, grad_values := none })

/-- Model of `gram_matrix`, lines 213–216: permute the `(H, W, C)` feature map to
`(C, H, W)`, flatten to `(C, H*W)` and multiply by the transpose, so entry
`(c1, c2)` is the sum over all spatial positions of the product of the two
channels' activations. -/
def gram_matrix (H W : ℕ) (x : ℕ → ℕ → ℕ → ℚ) (c1 c2 : ℕ) : ℚ :=
  ∑ i ∈ Finset.range H, ∑ j ∈ Finset.range W, x i j c1 * x i j c2

/-- Model of `style_loss`, lines 225–230: sum of squared differences of the two
Gram matrices, divided by `4 * channels² * size²` where `channels = 3` and
`size = height * width` are the *hard-coded* constants of the source
(`imgH`, `imgW` stand for the script globals `height`, `width`), not the
feature map's dimensions `H`, `W`, `C`. -/
def style_loss (imgH imgW H W C : ℕ) (style combination : ℕ → ℕ → ℕ → ℚ) : ℚ :=
  let channels : ℚ := 3
  let size : ℚ := ((imgH * imgW : ℕ) : ℚ)
  (∑ c1 ∈ Finset.range C, ∑ c2 ∈ Finset.range C,
      (gram_matrix H W style c1 c2 - gram_matrix H W combination c1 c2) ^ 2) /
    (4 * channels ^ 2 * size ^ 2)

/-- The normalization the spec describes for `style_loss`: divide by
`4 * C² * (H*W)²` with `C`, `H`, `W` the dimensions of the layer's
feature map.  Stated from the spec's words, to be compared with the
source's `style_loss`. -/
def specStyleLoss (H W C : ℕ) (style combination : ℕ → ℕ → ℕ → ℚ) : ℚ :=
  (∑ c1 ∈ Finset.range C, ∑ c2 ∈ Finset.range C,
      (gram_matrix H W style c1 c2 - gram_matrix H W combination c1 c2) ^ 2) /
    (4 * (C : ℚ) ^ 2 * (((H * W : ℕ) : ℚ)) ^ 2)

/-- Model of `content_loss`, lines 191–192: sum of squared differences of the two
feature maps. -/
def content_loss (H W C : ℕ) (content combination : ℕ → ℕ → ℕ → ℚ) : ℚ :=
  ∑ i ∈ Finset.range H, ∑ j ∈ Finset.range W, ∑ c ∈ Finset.range C,
    (combination i j c - content i j c) ^ 2

/-- The role of a slot in the batch tensor. -/
inductive Role where
  | content
  | style (i : ℕ)
  | combination
deriving DecidableEq

/-- The concatenation order of lines 127–130:
`[content_image, style_image, combination_image, style_image2]`. -/
def input_tensor_order : List Role :=
  [Role.content, Role.style 1, Role.combination, Role.style 2]

/-- Batch index used for the content features (line 195: `layer_features[0]`). -/
def content_features_index : ℕ := 0

/-- Batch index used for the first style's features (line 242: `layer_features[1]`). -/
def style_features_index : ℕ := 1

/-- Batch index used for the second style's features (line 243: `layer_features[3]`). -/
def style_features2_index : ℕ := 3

/-- Batch index used for the combination features (lines 196 and 245:
`layer_features[2]`). -/
def combination_features_index : ℕ := 2

/-- Per-component initialization of the combination image (line 325):
a uniform draw from `[0, 255)` shifted down by 128. -/
def init_combination_component (u : ℚ) : ℚ := u - 128

/-- Model of `total_variation_loss`, lines 262–265: `a` is the squared
forward difference along height, `b` along width, both taken over all but
the last row and column (slices `:height-1`, `:width-1` of the script's
global dimensions, here `imgH`, `imgW`), and the result is the sum of
`(a + b) ^ 1.25` over those positions and all channels. -/
noncomputable def total_variation_loss (imgH imgW channels : ℕ)
    (x : ℕ → ℕ → ℕ → ℚ) : ℝ :=
  ∑ i ∈ Finset.range (imgH - 1), ∑ j ∈ Finset.range (imgW - 1),
    ∑ c ∈ Finset.range channels,
      ((((x i j c - x (i + 1) j c) ^ 2 + (x i j c - x i (j + 1) c) ^ 2 : ℚ)) : ℝ)
        ^ (1.25 : ℝ)

/-- The predicate used by the claim on `total_variation_loss`: the image
has at least one non-zero forward finite difference along height or
width, anywhere in its `imgH × imgW × channels` domain. -/
def hasNonzeroForwardDiff (imgH imgW channels : ℕ) (x : ℕ → ℕ → ℕ → ℚ) : Prop :=
  (∃ i j c, i + 1 < imgH ∧ j < imgW ∧ c < channels ∧ x i j c ≠ x (i + 1) j c) ∨
  (∃ i j c, i < imgH ∧ j + 1 < imgW ∧ c < channels ∧ x i j c ≠ x i (j + 1) c)

/-- A 2×2 single-channel image that differs from constant only in its
last row: pixel (1,1) is 1, the rest are 0. -/
def ceImgTV : ℕ → ℕ → ℕ → ℚ := fun i j _ => if i = 1 ∧ j = 1 then 1 else 0

/-- A 2×2 single-channel image with pixel (0,0) equal to 1, the rest 0. -/
def tvWitnessImg : ℕ → ℕ → ℕ → ℚ := fun i j _ => if i = 0 ∧ j = 0 then 1 else 0

/-- The three per-layer feature maps used in the style-loss loop of
lines 240–249: the two styles' features and the combination's features at
one layer, with that layer's dimensions. -/
structure LayerActs where
  H : ℕ
  W : ℕ
  C : ℕ
  style_features : ℕ → ℕ → ℕ → ℚ
  style_features2 : ℕ → ℕ → ℕ → ℚ
  combination_features : ℕ → ℕ → ℕ → ℚ

/-- The total objective built by the script: `loss` starts at 0
(line 177), the content term is added (lines 198–199), the loop over
`feature_layers` adds both styles' terms (lines 240–249), and finally the
total-variation term is added (line 267). -/
noncomputable def totalLoss
    (content_weight style_weight style_weight2 total_variation_weight : ℚ)
    (imgH imgW : ℕ) (Hc Wc Cc : ℕ)
    (content_image_features combination_features : ℕ → ℕ → ℕ → ℚ)
    (feature_layers : List LayerActs)
    (channels : ℕ) (combination_image : ℕ → ℕ → ℕ → ℚ) : ℝ :=
  (((feature_layers.foldl
      (fun acc la =>
        acc + (style_weight / (feature_layers.length : ℚ)) *
            style_loss imgH imgW la.H la.W la.C la.style_features la.combination_features
          + (style_weight2 / (feature_layers.length : ℚ)) *
            style_loss imgH imgW la.H la.W la.C la.style_features2 la.combination_features)
      (0 + content_weight *
        content_loss Hc Wc Cc content_image_features combination_features)) : ℚ) : ℝ)
  + (total_variation_weight : ℝ) *
      total_variation_loss imgH imgW channels combination_image

/-- Concrete 1×1×1 style feature map with constant value 2. -/
def sFeatCE : ℕ → ℕ → ℕ → ℚ := fun _ _ _ => 2

/-- Concrete 1×1×1 combination feature map with constant value 0. -/
def cFeatCE : ℕ → ℕ → ℕ → ℚ := fun _ _ _ => 0

/-- Image whose pixels are pure blue: RGB value (0, 0, 255). -/
def bluePixelImage : ℕ → ℕ → ℕ → ℚ := fun _ _ c => if c = 2 then 255 else 0

/-- C1: round-trip of the image preprocessing.  De-preprocessing the
preprocessed image recovers the original channel value up to the final
clip-and-truncate step, and when the value already lies in `[0, 255]`
the difference to the returned 8-bit value is at most 1. -/
theorem c1_roundtrip (img : ℕ → ℕ → ℕ → ℚ) (i j c : ℕ) (hc : c < 3) :
    unprepare (prepare img) i j c = ⌊clip 0 255 (img i j c)⌋ ∧
    (0 ≤ img i j c → img i j c ≤ 255 →
      |img i j c - ((unprepare (prepare img) i j c : ℤ) : ℚ)| ≤ 1) := by
  have hrc : revChan (revChan c) = c := by
    interval_cases c <;> rfl
  have hmain : unprepare (prepare img) i j c = ⌊clip 0 255 (img i j c)⌋ := by
    simp only [unprepare, prepare, hrc, sub_add_cancel]
  refine ⟨hmain, fun h0 h255 => ?_⟩
  rw [hmain]
  have hclip : clip 0 255 (img i j c) = img i j c := by
    unfold clip
    rw [max_eq_right h0, min_eq_right h255]
  rw [hclip]
  set x := img i j c with hx
  have hfl : (⌊x⌋ : ℚ) ≤ x := Int.floor_le x
  have hfu : x < ⌊x⌋ + 1 := Int.lt_floor_add_one x
  rw [abs_of_nonneg (by linarith)]
  linarith

/-- Witness for C1 at the concrete constant image with value 119. -/
theorem c1_roundtrip_witness :
    unprepare (prepare (fun _ _ _ => (119 : ℚ))) 0 0 0 = ⌊clip 0 255 (119 : ℚ)⌋ ∧
    |(119 : ℚ) - ((unprepare (prepare (fun _ _ _ => (119 : ℚ))) 0 0 0 : ℤ) : ℚ)| ≤ 1 := by
  have h := c1_roundtrip (fun _ _ _ => (119 : ℚ)) 0 0 0 (by norm_num)
  exact ⟨h.1, h.2 (by norm_num) (by norm_num)⟩

/-- C2: the bridge protocol.  `grads` called on a fresh `Evaluator`
(no preceding `loss` call) fails its assertion, and a second `loss`
call immediately following a successful one fails its assertion. -/
theorem c2_bridge_protocol {X L G : Type} (f : X → L × G) (x y : X) :
    Evaluator.grads (Evaluator.init L G) x = none ∧
    (∀ r : L × Evaluator L G,
      Evaluator.loss f (Evaluator.init L G) x = some r →
      Evaluator.loss f r.2 y = none) := by
  constructor
  · rfl
  · intro r hr
    have : r = ((f x).1, ⟨some (f x).1, some (f x).2⟩) := by
      simpa [Evaluator.loss, Evaluator.init] using hr.symm
    rw [this]
    rfl

/-- Witness for C2: concrete run with `f t = (t, t)` over `ℚ`. -/
theorem c2_bridge_protocol_witness :
    Evaluator.grads (Evaluator.init ℚ ℚ) (1 : ℚ) = none ∧
    Evaluator.loss (fun t : ℚ => (t, t)) (Evaluator.mk (some 1) (some 1)) (2 : ℚ) = none := by
  have h := c2_bridge_protocol (fun t : ℚ => (t, t)) (1 : ℚ) (2 : ℚ)
  exact ⟨h.1, h.2 (1, Evaluator.mk (some 1) (some 1)) rfl⟩

/-- C10: after a successful `loss f init x`, `grads` ignores its
argument, returns the gradient computed for `x` (the second component of
`f x`), and resets the object to its initial empty state. -/
theorem c10_grads_ignores_argument {X L G : Type} (f : X → L × G) (x y z : X)
    (r : L × Evaluator L G)
    (hr : Evaluator.loss f (Evaluator.init L G) x = some r) :
    Evaluator.grads r.2 y = some (some (f x).2, Evaluator.init L G) ∧
    Evaluator.grads r.2 y = Evaluator.grads r.2 z := by
  have hre : r = ((f x).1, ⟨some (f x).1, some (f x).2⟩) := by
    simpa [Evaluator.loss, Evaluator.init] using hr.symm
  rw [hre]
  exact ⟨rfl, rfl⟩

/-- Witness for C10: concrete run with `f t = (t + 1, 2 * t)` over `ℚ`. -/
theorem c10_grads_ignores_argument_witness :
    Evaluator.grads (Evaluator.mk (some (4 : ℚ)) (some (6 : ℚ))) (99 : ℚ)
      = some (some 6, Evaluator.init ℚ ℚ) ∧
    Evaluator.grads (Evaluator.mk (some (4 : ℚ)) (some (6 : ℚ))) (99 : ℚ)
      = Evaluator.grads (Evaluator.mk (some (4 : ℚ)) (some (6 : ℚ))) (-5 : ℚ) := by
  have h := c10_grads_ignores_argument (fun t : ℚ => (t + 1, 2 * t)) (3 : ℚ) (99 : ℚ) (-5 : ℚ)
    (4, Evaluator.mk (some 4) (some 6)) (by norm_num [Evaluator.loss, Evaluator.init])
  refine ⟨?_, h.2⟩
  have h1 := h.1
  norm_num at h1
  exact h1


/-- Counterexample to C3 as stated: on a 1×1 feature map with a single
channel, the source's `style_loss` (which always divides by
`4 · 3² · (512·512)²`) differs from the spec's normalization
`4 · C² · (H·W)²` computed from the feature map's own dimensions. -/
theorem c3_stated_counterexample :
    style_loss height width 1 1 1 sFeatCE cFeatCE ≠ specStyleLoss 1 1 1 sFeatCE cFeatCE := by
  norm_num [style_loss, specStyleLoss, gram_matrix, height, width, sFeatCE, cFeatCE,
    Finset.sum_range_one]

/-- C3 amended: for every pair of feature maps, `style_loss` equals the
sum of squared Gram-matrix differences divided by `4 · 3² · (height·width)²`
with the script's global image dimensions (512 × 512) and the hard-coded
channel count 3, regardless of the feature map's own dimensions. -/
theorem c3_style_loss_formula (H W C : ℕ) (s co : ℕ → ℕ → ℕ → ℚ) :
    style_loss height width H W C s co =
      (∑ c1 ∈ Finset.range C, ∑ c2 ∈ Finset.range C,
        (gram_matrix H W s c1 c2 - gram_matrix H W co c1 c2) ^ 2) /
      (4 * 3 ^ 2 * ((512 * 512 : ℚ)) ^ 2) := by
  simp only [style_loss, height, width]
  norm_num

/-- C6: the Gram matrix is symmetric, and positive semi-definite in the
sense that the quadratic form it induces on any vector of channel weights
is non-negative. -/
theorem c6_gram_symmetric_psd :
    (∀ (H W : ℕ) (x : ℕ → ℕ → ℕ → ℚ) (c1 c2 : ℕ),
      gram_matrix H W x c1 c2 = gram_matrix H W x c2 c1) ∧
    (∀ (H W C : ℕ) (x : ℕ → ℕ → ℕ → ℚ) (v : ℕ → ℚ),
      0 ≤ ∑ c1 ∈ Finset.range C, ∑ c2 ∈ Finset.range C,
            v c1 * gram_matrix H W x c1 c2 * v c2) := by
  constructor
  · intro H W x c1 c2
    unfold gram_matrix
    exact Finset.sum_congr rfl fun i _ =>
      Finset.sum_congr rfl fun j _ => mul_comm _ _
  · intro H W C x v
    have e1 : ∀ c1 c2 : ℕ, gram_matrix H W x c1 c2
        = ∑ p ∈ Finset.range H ×ˢ Finset.range W, x p.1 p.2 c1 * x p.1 p.2 c2 := by
      intro c1 c2
      rw [Finset.sum_product]
      rfl
    have key : (∑ c1 ∈ Finset.range C, ∑ c2 ∈ Finset.range C,
          v c1 * gram_matrix H W x c1 c2 * v c2)
        = ∑ p ∈ Finset.range H ×ˢ Finset.range W,
            (∑ c ∈ Finset.range C, v c * x p.1 p.2 c) ^ 2 := by
      calc
        (∑ c1 ∈ Finset.range C, ∑ c2 ∈ Finset.range C,
            v c1 * gram_matrix H W x c1 c2 * v c2)
            = ∑ c1 ∈ Finset.range C, ∑ c2 ∈ Finset.range C,
                ∑ p ∈ Finset.range H ×ˢ Finset.range W,
                  (v c1 * x p.1 p.2 c1) * (v c2 * x p.1 p.2 c2) := by
              refine Finset.sum_congr rfl fun c1 _ => Finset.sum_congr rfl fun c2 _ => ?_
              rw [e1 c1 c2, Finset.mul_sum, Finset.sum_mul]
              exact Finset.sum_congr rfl fun p _ => by ring
        _ = ∑ c1 ∈ Finset.range C, ∑ p ∈ Finset.range H ×ˢ Finset.range W,
              ∑ c2 ∈ Finset.range C,
                (v c1 * x p.1 p.2 c1) * (v c2 * x p.1 p.2 c2) :=
              Finset.sum_congr rfl fun c1 _ => Finset.sum_comm
        _ = ∑ p ∈ Finset.range H ×ˢ Finset.range W,
              ∑ c1 ∈ Finset.range C, ∑ c2 ∈ Finset.range C,
                (v c1 * x p.1 p.2 c1) * (v c2 * x p.1 p.2 c2) :=
              Finset.sum_comm
        _ = ∑ p ∈ Finset.range H ×ˢ Finset.range W,
              (∑ c ∈ Finset.range C, v c * x p.1 p.2 c) ^ 2 := by
              refine Finset.sum_congr rfl fun p _ => ?_
              rw [sq, Finset.sum_mul_sum]
    rw [key]
    exact Finset.sum_nonneg fun p _ => sq_nonneg _

/-- Counterexample to C7 as stated: the second style image does not sit at
batch index 2 — slot 2 of the concatenation holds the combination image,
and the second style image sits at slot 3. -/
theorem c7_stated_counterexample :
    input_tensor_order[2]? ≠ some (Role.style 2) ∧
    input_tensor_order[2]? = some Role.combination := by
  constructor
  · intro h
    simp [input_tensor_order] at h
  · rfl

/-- C7 amended: the batch order is fixed as
content (slot 0), first style (slot 1), combination (slot 2), second
style (slot 3, the last slot), and every per-role feature slice in the
loss construction uses exactly the index of that role's slot. -/
theorem c7_batch_order_matches_slices :
    input_tensor_order[content_features_index]? = some Role.content ∧
    input_tensor_order[style_features_index]? = some (Role.style 1) ∧
    input_tensor_order[combination_features_index]? = some Role.combination ∧
    input_tensor_order[style_features2_index]? = some (Role.style 2) ∧
    style_features2_index = input_tensor_order.length - 1 := by
  refine ⟨rfl, rfl, rfl, rfl, rfl⟩


/-- C8: evaluating the source's preprocessing on a pure-blue pixel.  The
blue channel of the resulting BGR tensor (index 0 after the flip) equals
`255 - 123.68`, i.e. the mean subtracted from the blue channel is 123.68
and not 103.939 as the network convention (and the claim) requires. -/
theorem c8_mean_subtraction_swapped :
    prepare bluePixelImage 0 0 0 = 255 - 3092 / 25 ∧
    prepare bluePixelImage 0 0 0 ≠ 255 - 103939 / 1000 := by
  constructor
  · norm_num [prepare, bluePixelImage, revChan, means]
  · norm_num [prepare, bluePixelImage, revChan, means]

/-- Counterexample to C9 as stated: a legal uniform draw of 0 (which lies
in `[0, 255)`) yields the initial combination component `-128`, outside
the valid pixel range `[0, 255]`. -/
theorem c9_stated_counterexample :
    (0 : ℚ) ≤ 0 ∧ (0 : ℚ) < 255 ∧ init_combination_component 0 < 0 := by
  norm_num [init_combination_component]

/-- C9 amended: each component of the initial combination image lies in
`[-128, 127)`, the valid pixel range shifted down by 128, whenever the
underlying uniform draw lies in its range `[0, 255)`. -/
theorem c9_init_range (u : ℚ) (h0 : 0 ≤ u) (h255 : u < 255) :
    -128 ≤ init_combination_component u ∧ init_combination_component u < 127 := by
  unfold init_combination_component
  constructor <;> linarith

/-- Witness for C9 at the concrete draw `u = 10`. -/
theorem c9_init_range_witness :
    -128 ≤ init_combination_component 10 ∧ init_combination_component 10 < 127 :=
  c9_init_range 10 (by norm_num) (by norm_num)

/-- Helper: folding a two-term accumulation over a list equals the initial
value plus the two mapped sums. -/
lemma foldl_add_two (g1 g2 : LayerActs → ℚ) (l : List LayerActs) (a : ℚ) :
    l.foldl (fun acc la => acc + g1 la + g2 la) a
      = a + (l.map g1).sum + (l.map g2).sum := by
  induction l generalizing a with
  | nil => simp
  | cons hd tl ih =>
    simp only [List.foldl_cons, List.map_cons, List.sum_cons, ih]
    ring

/-- Helper: a non-zero rational has a positive square. -/
lemma sq_pos_of_ne {a : ℚ} (h : a ≠ 0) : 0 < a ^ 2 := by
  rcases h.lt_or_lt with hl | hl
  · nlinarith
  · nlinarith

/-- Counterexample to C4 as stated: this 2×2 image has a non-zero forward
finite difference along width (in its last row), yet its total-variation
loss is 0, because the loss only reads differences whose base point lies
in the first `height-1` rows *and* first `width-1` columns. -/
theorem c4_stated_counterexample :
    hasNonzeroForwardDiff 2 2 1 ceImgTV ∧ total_variation_loss 2 2 1 ceImgTV = 0 := by
  constructor
  · right
    refine ⟨1, 0, 0, by norm_num, by norm_num, by norm_num, ?_⟩
    norm_num [ceImgTV]
  · have h0 : ((0 : ℝ) ^ (1.25 : ℝ)) = 0 := Real.zero_rpow (by norm_num)
    simp [total_variation_loss, ceImgTV, Finset.sum_range_one, h0]

/-- C4 amended: the total-variation loss is 0 for every spatially constant
image, and strictly positive for every image with a non-zero forward
finite difference whose base point lies in the first `imgH - 1` rows and
first `imgW - 1` columns (the window the source actually reads). -/
theorem c4_tv_zero_and_positive :
    (∀ (imgH imgW ch : ℕ) (x : ℕ → ℕ → ℕ → ℚ) (k : ℚ),
      (∀ i j c, x i j c = k) → total_variation_loss imgH imgW ch x = 0) ∧
    (∀ (imgH imgW ch : ℕ) (x : ℕ → ℕ → ℕ → ℚ),
      (∃ i j c, i < imgH - 1 ∧ j < imgW - 1 ∧ c < ch ∧
        (x i j c ≠ x (i + 1) j c ∨ x i j c ≠ x i (j + 1) c)) →
      0 < total_variation_loss imgH imgW ch x) := by
  constructor
  · intro imgH imgW ch x k hx
    unfold total_variation_loss
    refine Finset.sum_eq_zero fun i _ => Finset.sum_eq_zero fun j _ =>
      Finset.sum_eq_zero fun c _ => ?_
    simp only [hx, sub_self]
    norm_num
  · rintro imgH imgW ch x ⟨i, j, c, hi, hj, hc, hne⟩
    unfold total_variation_loss
    have hpos : (0 : ℚ) < (x i j c - x (i + 1) j c) ^ 2 + (x i j c - x i (j + 1) c) ^ 2 := by
      rcases hne with h | h
      · exact add_pos_of_pos_of_nonneg (sq_pos_of_ne (sub_ne_zero.mpr h)) (sq_nonneg _)
      · exact add_pos_of_nonneg_of_pos (sq_nonneg _) (sq_pos_of_ne (sub_ne_zero.mpr h))
    have hterm : ∀ i' j' c' : ℕ,
        (0 : ℝ) ≤ (((x i' j' c' - x (i' + 1) j' c') ^ 2
            + (x i' j' c' - x i' (j' + 1) c') ^ 2 : ℚ) : ℝ) ^ (1.25 : ℝ) := by
      intro i' j' c'
      refine Real.rpow_nonneg ?_ _
      push_cast
      positivity
    refine Finset.sum_pos' (fun i' _ => Finset.sum_nonneg fun j' _ =>
        Finset.sum_nonneg fun c' _ => hterm i' j' c')
      ⟨i, Finset.mem_range.mpr hi, ?_⟩
    refine Finset.sum_pos' (fun j' _ => Finset.sum_nonneg fun c' _ => hterm i j' c')
      ⟨j, Finset.mem_range.mpr hj, ?_⟩
    refine Finset.sum_pos' (fun c' _ => hterm i j c') ⟨c, Finset.mem_range.mpr hc, ?_⟩
    exact Real.rpow_pos_of_pos (by exact_mod_cast hpos) _

/-- Witness for C4: a constant 2×2 image has zero loss, and a 2×2 image
with a step at the origin has strictly positive loss. -/
theorem c4_tv_zero_and_positive_witness :
    total_variation_loss 2 2 1 (fun _ _ _ => (5 : ℚ)) = 0 ∧
    0 < total_variation_loss 2 2 1 tvWitnessImg := by
  constructor
  · exact c4_tv_zero_and_positive.1 2 2 1 (fun _ _ _ => (5 : ℚ)) 5 (fun _ _ _ => rfl)
  · refine c4_tv_zero_and_positive.2 2 2 1 tvWitnessImg
      ⟨0, 0, 0, by norm_num, by norm_num, by norm_num, Or.inl ?_⟩
    norm_num [tvWitnessImg]

/-- C5: the total objective equals the content-weighted content loss, plus
each style's per-layer style losses weighted by that style's weight over
the number of style layers, plus the weighted total-variation loss. -/
theorem c5_total_objective (cw sw sw2 tw : ℚ) (imgH imgW Hc Wc Cc : ℕ)
    (cf cbf : ℕ → ℕ → ℕ → ℚ) (fls : List LayerActs) (ch : ℕ)
    (x : ℕ → ℕ → ℕ → ℚ) :
    totalLoss cw sw sw2 tw imgH imgW Hc Wc Cc cf cbf fls ch x
      = ((cw * content_loss Hc Wc Cc cf cbf
          + (fls.map (fun la => (sw / (fls.length : ℚ)) *
              style_loss imgH imgW la.H la.W la.C la.style_features
                la.combination_features)).sum
          + (fls.map (fun la => (sw2 / (fls.length : ℚ)) *
              style_loss imgH imgW la.H la.W la.C la.style_features2
                la.combination_features)).sum : ℚ) : ℝ)
        + (tw : ℝ) * total_variation_loss imgH imgW ch x := by
  unfold totalLoss
  rw [foldl_add_two]
  simp only [zero_add]
